import Mathlib

/-!
Shallow embedding of `src/site/_collections/events.js` (the events collection
pipeline of developer.chrome.com): author resolution, session normalization,
event normalization, the past/current views and the facet extractor, together
with proofs of the specification's testable properties.

External collaborators of the module (the content store, the author directory,
the i18n string lookup, the `Img` shortcode, the date utilities) are modelled
as explicit data: an `Env` record of the module-level imports and a
`Collections` record for the Eleventy collection object.
-/

namespace Events

/-- Record of the author directory `authorsData.json`: image reference and
optional social handles, keyed externally by handle. -/
structure AuthorRecord where
  image : Option String
  twitter : Option String
  linkedin : Option String
deriving DecidableEq

/-- Arguments passed to the `Img` shortcode. The descriptor it builds is
opaque to this module, so the embedding keeps the argument record itself. -/
structure ImgArgs where
  src : String
  width : Nat
  height : Nat
  alt : String
  cls : Option String := none
deriving DecidableEq

/-- Modelled from the spec: the external image-descriptor builder
`buildImage({src, width, height, alt, class?})` returns an opaque value not
interpreted by this core; the model returns the argument record unchanged. -/
def Img (args : ImgArgs) : ImgArgs := args

/-- Raw session record as read from an event's front matter: `processSession`
reads `title`, `description`, `type`, `topics`, `slidesUrl`, `videoUrl`, and
the `speaker` handle (for `type === 'speaker'`) or the `participants` handle
list (for every other type). -/
structure RawSession where
  title : String
  description : String
  type : String
  topics : List String
  slidesUrl : Option String
  videoUrl : Option String
  speaker : String
  participants : List String
deriving DecidableEq

/-- The `data` of one raw event collection item, as read by `getEvents`. -/
structure RawEventData where
  id : Nat
  title : String
  externalUrl : Option String
  summary : String
  location : String
  date : Int
  image : Option String
  sessions : List RawSession
deriving DecidableEq

/-- The Eleventy collections object: `getFilteredByGlob` returns the raw event
records whose path matches the glob (an external content store). -/
structure Collections where
  getFilteredByGlob : String → List RawEventData

/-- The module-level imports of `events.js`: the author directory
(`authorsData.json`), the i18n lookup `i18n(key, locale)`, the site constants
`defaultAvatarImg` and `chromeImg`, and the evaluation instant `now` consumed
by the external `isPastEvent` date utility. -/
structure Env where
  authorsData : List (String × AuthorRecord)
  i18n : String → String → String
  defaultAvatarImg : String
  chromeImg : String
  now : Int

/-- The `EVENT_PLACEHOLDER` image reference constant. -/
def EVENT_PLACEHOLDER : String :=
  "image/fuiz5I8Iv7bV8YbrK2PKiY3Vask2/5nwgD8ftJ8DREfN1QF7z.png"

/-- Modelled from the spec: the external date utility `isPast(rawEvent)` from
`_js/utils/events` (not under `src/`) — an event is past iff its date is at or
before the evaluation instant `now`. -/
def isPastEvent (env : Env) (event : RawEventData) : Bool :=
  event.date ≤ env.now

/-- Resolved author data (`EventPersonCollectionItem`). -/
structure EventPersonCollectionItem where
  image : String
  title : String
  twitter : Option String
  linkedin : Option String
  handle : String
deriving DecidableEq

/-- Normalized session view model (`EventSessionCollectionItem`): the payload
built by `processSession`; exactly one of `speaker` / `participants` is set. -/
structure EventSessionCollectionItem where
  title : String
  description : String
  type : String
  topics : List String
  slidesUrl : Option String
  videoUrl : Option String
  speaker : Option EventPersonCollectionItem := none
  participants : Option (List EventPersonCollectionItem) := none
  image : Option ImgArgs := none
deriving DecidableEq

/-- Normalized event view model (`EventsCollectionItem`). -/
structure EventsCollectionItem where
  id : Nat
  title : String
  externalUrl : Option String
  summary : String
  location : String
  date : Int
  isPastEvent : Bool
  sessions : List EventSessionCollectionItem
  image : ImgArgs
deriving DecidableEq

/-- The author resolver `getAuthorData(authorHandle, locale)`: throws
`Invalid author` when the handle is not a key of the directory; otherwise the
image falls back to `defaultAvatarImg`, the title is looked up under the key
`i18n.authors.<handle>.title`, social handles and the handle are copied. -/
def getAuthorData (env : Env) (authorHandle : String) (locale : String) :
    Except String EventPersonCollectionItem :=
  match env.authorsData.lookup authorHandle with
  | none => .error ("Invalid author: " ++ authorHandle)
  | some authorData =>
      .ok { image := authorData.image.getD env.defaultAvatarImg
            title := env.i18n ("i18n.authors." ++ authorHandle ++ ".title") locale
            twitter := authorData.twitter
            linkedin := authorData.linkedin
            handle := authorHandle }

/-- The session normalizer `processSession(session, locale)`. For a
`speaker`-typed session the single speaker is resolved and the image is built
from the speaker's image (the source's `payload.speaker.title ?? payload.title`
alt reduces to the speaker title, which is always a string here). For every
other type each participant is resolved in order; the title is the single
participant's title when there is exactly one, else the localized
multiple-participants label (the source calls `i18n` without a locale, which
the external i18n filter defaults to `'en'`); the image source is the single
participant's image or `chromeImg`. -/
def processSession (env : Env) (session : RawSession) (locale : String) :
    Except String EventSessionCollectionItem :=
  if session.type == "speaker" then do
    let speaker ← getAuthorData env session.speaker locale
    return { title := session.title
             description := session.description
             type := session.type
             topics := session.topics
             slidesUrl := session.slidesUrl
             videoUrl := session.videoUrl
             speaker := some speaker
             participants := none
             image := some (Img { src := speaker.image, width := 40, height := 40,
                                  alt := speaker.title,
                                  cls := some "flex-shrink-none height-600 width-600 rounded-full gap-right-300" }) }
  else do
    let participants ← session.participants.mapM (fun p => getAuthorData env p locale)
    let title := match participants with
      | [p] => p.title
      | _ => env.i18n "i18n.events.multiple_participants" "en"
    return { title := title
             description := session.description
             type := session.type
             topics := session.topics
             slidesUrl := session.slidesUrl
             videoUrl := session.videoUrl
             speaker := none
             participants := some participants
             image := some (Img { src := match participants with
                                    | [p] => p.image
                                    | _ => env.chromeImg
                                  , width := 40, height := 40,
                                  alt := title,
                                  cls := some "flex-shrink-none height-600 width-600 rounded-full gap-right-300" }) }

/-- Modelled from the spec: `Array.prototype.sort` with an external comparator
(`sortAsc` / `sortDesc` live in `_js/utils/events`, not under `src/`); the
model sorts by the comparator's induced less-or-equal relation. -/
def sortWith {α : Type} (le : α → α → Bool) (l : List α) : List α :=
  l.insertionSort (fun a b => le a b = true)

/-- Modelled from the spec: the ascending-by-date comparator over normalized
events. -/
def sortAsc (a b : EventsCollectionItem) : Bool :=
  a.date ≤ b.date

/-- Modelled from the spec: the descending-by-date comparator over normalized
events. -/
def sortDesc (a b : EventsCollectionItem) : Bool :=
  b.date ≤ a.date

/-- The per-event body of the `payload.map` inside `getEvents` (normalizing
one raw event): map every raw session through `processSession`, build the
400×400 cover image from the event image or the placeholder, copy the scalar
fields and compute `isPastEvent`. -/
def normalizeEvent (env : Env) (locale : String) (event : RawEventData) :
    Except String EventsCollectionItem := do
  let sessions ← event.sessions.mapM (fun session => processSession env session locale)
  let image := Img { src := event.image.getD EVENT_PLACEHOLDER,
                     width := 400, height := 400, alt := event.title }
  return { id := event.id
           title := event.title
           externalUrl := event.externalUrl
           summary := event.summary
           location := event.location
           date := event.date
           isPastEvent := isPastEvent env event
           sessions := sessions
           image := image }

/-- The event collection pipeline `getEvents({collections, filter, sort,
locale = 'en'})`: glob-scoped retrieval, optional raw-event filter, map through
`normalizeEvent`, optional sort. -/
def getEvents (env : Env) (collections : Collections)
    (filter : Option (RawEventData → Bool))
    (sort : Option (EventsCollectionItem → EventsCollectionItem → Bool))
    (locale : String := "en") : Except String (List EventsCollectionItem) := do
  let payload := collections.getFilteredByGlob
    ("./site/" ++ locale ++ "/meet-the-team/events/**/*.md")
  let payload := match filter with
    | some f => payload.filter f
    | none => payload
  let payload ← payload.mapM (normalizeEvent env locale)
  match sort with
  | some le => return sortWith le payload
  | none => return payload

/-- The `pastEvents` collection: past events, sorted descending by date. -/
def pastEvents (env : Env) (collections : Collections) :
    Except String (List EventsCollectionItem) :=
  getEvents env collections (some (fun event => isPastEvent env event)) (some sortDesc)

/-- The `currentEvents` collection: non-past events, sorted ascending. -/
def currentEvents (env : Env) (collections : Collections) :
    Except String (List EventsCollectionItem) :=
  getEvents env collections (some (fun event => isPastEvent env event == false)) (some sortAsc)

/-- A `{handle, title}` pair of the speakers facet. -/
structure SpeakerTag where
  handle : String
  title : String
deriving DecidableEq

/-- Modelled from the spec: locale-aware string comparison
(`String.prototype.localeCompare`), modelled as the lexicographic order on
strings. -/
def localeLe (a b : String) : Bool :=
  a ≤ b

/-- The filter-with-index idiom of JavaScript `Array.prototype.filter`: keep
the elements whose zero-based index satisfies the callback, `i` being the
index of the head. -/
def filterIdxFrom {α : Type} (p : Nat → α → Bool) : List α → Nat → List α
  | [], _ => []
  | a :: l, i => if p i a then a :: filterIdxFrom p l (i + 1) else filterIdxFrom p l (i + 1)

/-- The `rawSpeakers` list built inside `uniqueSpeakers`: one `{handle,
title}` pair from the speaker of each speaker session, one per participant of
each panel session, flattened across all events. -/
def rawSpeakersOf (events : List EventsCollectionItem) : List SpeakerTag :=
  (events.map (fun e =>
    e.sessions.flatMap (fun s =>
      match s.speaker with
      | some sp => [{ handle := sp.handle, title := sp.title }]
      | none => (s.participants.getD []).map
          (fun p => { handle := p.handle, title := p.title })))).flatten

/-- The speakers facet `uniqueSpeakers(events)`: keep each pair whose index is
the first index carrying its handle (`findIndex` de-duplication), then sort by
title with `localeCompare`. -/
def uniqueSpeakers (events : List EventsCollectionItem) : List SpeakerTag :=
  let rawSpeakers := rawSpeakersOf events
  sortWith (fun a b => localeLe a.title b.title)
    (filterIdxFrom
      (fun i s => rawSpeakers.findIdx (fun first => s.handle == first.handle) == i)
      rawSpeakers 0)

/-- Helper of `setSpread`: iterate keeping each value not already seen, the
way `Set` insertion works. -/
def setSpreadGo {α : Type} [DecidableEq α] (seen : List α) : List α → List α
  | [] => []
  | a :: l => if a ∈ seen then setSpreadGo seen l else a :: setSpreadGo (a :: seen) l

/-- The `[...new Set(xs)]` idiom: de-duplicate keeping the first occurrence of
each value, preserving insertion order. -/
def setSpread {α : Type} [DecidableEq α] (l : List α) : List α :=
  setSpreadGo [] l

/-- The topics facet `uniqueTopics(events)`: flatten all session topic lists,
de-duplicate via `Set`, sort with `localeCompare`. -/
def uniqueTopics (events : List EventsCollectionItem) : List String :=
  let topics := (events.map (fun e => e.sessions.flatMap (fun s => s.topics))).flatten
  sortWith localeLe (setSpread topics)

/-- The locations facet `uniqueLocations(events)`: collect each event's
location, de-duplicate via `Set`, sort with `localeCompare`. -/
def uniqueLocations (events : List EventsCollectionItem) : List String :=
  let locations := events.map (fun e => e.location)
  sortWith localeLe (setSpread locations)

/-- The result record of `eventTags`. -/
structure EventTagsResult where
  locations : List String
  speakers : List SpeakerTag
  topics : List String
deriving DecidableEq

/-- The `eventTags` collection: the full normalized event list (no filter, no
sort) reduced to its three facets. -/
def eventTags (env : Env) (collections : Collections) :
    Except String EventTagsResult := do
  let events ← getEvents env collections none none
  return { locations := uniqueLocations events
           speakers := uniqueSpeakers events
           topics := uniqueTopics events }

/-! ### Helper lemmas about the modelled JavaScript idioms -/

theorem sortWith_perm {α : Type} (le : α → α → Bool) (l : List α) :
    (sortWith le l).Perm l :=
  List.perm_insertionSort _ l

theorem sortWith_sorted {α : Type} (le : α → α → Bool)
    (htot : ∀ a b, le a b = true ∨ le b a = true)
    (htrans : ∀ a b c, le a b = true → le b c = true → le a c = true)
    (l : List α) : (sortWith le l).Sorted (fun a b => le a b = true) := by
  haveI : IsTotal α (fun a b => le a b = true) := ⟨htot⟩
  haveI : IsTrans α (fun a b => le a b = true) := ⟨fun a b c => htrans a b c⟩
  exact List.sorted_insertionSort _ l

theorem setSpreadGo_mem {α : Type} [DecidableEq α] (x : α) :
    ∀ (l seen : List α), x ∈ setSpreadGo seen l ↔ x ∈ l ∧ x ∉ seen := by
  intro l
  induction l with
  | nil => intro seen; simp [setSpreadGo]
  | cons a l ih =>
      intro seen
      by_cases h : a ∈ seen
      · simp only [setSpreadGo, if_pos h, ih, List.mem_cons]
        constructor
        · rintro ⟨hl, hs⟩; exact ⟨Or.inr hl, hs⟩
        · rintro ⟨ha | hl, hs⟩
          · exact absurd (ha ▸ h) hs
          · exact ⟨hl, hs⟩
      · simp only [setSpreadGo, if_neg h, List.mem_cons, ih, List.mem_cons]
        constructor
        · rintro (rfl | ⟨hl, hs⟩)
          · exact ⟨Or.inl rfl, h⟩
          · exact ⟨Or.inr hl, fun hx => hs (Or.inr hx)⟩
        · rintro ⟨rfl | hl, hs⟩
          · exact Or.inl rfl
          · by_cases hxa : x = a
            · exact Or.inl hxa
            · exact Or.inr ⟨hl, fun hx => (hx.elim hxa hs : False)⟩

theorem setSpreadGo_nodup {α : Type} [DecidableEq α] :
    ∀ (l seen : List α), (setSpreadGo seen l).Nodup := by
  intro l
  induction l with
  | nil => intro seen; simp [setSpreadGo]
  | cons a l ih =>
      intro seen
      by_cases h : a ∈ seen
      · simpa [setSpreadGo, if_pos h] using ih seen
      · rw [setSpreadGo, if_neg h]
        refine List.Pairwise.cons ?_ (ih (a :: seen))
        intro b hb
        rcases (setSpreadGo_mem b l (a :: seen)).mp hb with ⟨-, hnot⟩
        intro hab
        exact hnot (by rw [← hab]; exact List.mem_cons_self a seen)

theorem setSpread_mem {α : Type} [DecidableEq α] (x : α) (l : List α) :
    x ∈ setSpread l ↔ x ∈ l := by
  simp [setSpread, setSpreadGo_mem]

theorem setSpread_nodup {α : Type} [DecidableEq α] (l : List α) :
    (setSpread l).Nodup :=
  setSpreadGo_nodup l []

theorem mapM_ok_iff {ε α β : Type} (g : α → Except ε β) :
    ∀ (l : List α) (r : List β),
      l.mapM g = .ok r ↔ List.Forall₂ (fun a b => g a = .ok b) l r := by
  intro l
  induction l with
  | nil =>
      intro r
      rw [List.mapM_nil]
      show (Except.ok ([] : List β) = Except.ok r) ↔ _
      simp [List.forall₂_nil_left_iff, eq_comm]
  | cons a l ih =>
      intro r
      rw [List.mapM_cons]
      cases hga : g a with
      | error e =>
          constructor
          · intro h; exact Except.noConfusion h
          · intro h
            rcases List.forall₂_cons_left_iff.mp h with ⟨b, r', hb, -, rfl⟩
            rw [hga] at hb
            exact Except.noConfusion hb
      | ok b =>
          cases hm : l.mapM g with
          | error e =>
              constructor
              · intro h; exact Except.noConfusion h
              · intro h
                rcases List.forall₂_cons_left_iff.mp h with ⟨b', r', -, hf, rfl⟩
                rw [(ih r').mpr hf] at hm
                exact Except.noConfusion hm
          | ok r' =>
              show (Except.ok (b :: r') : Except ε (List β)) = Except.ok r ↔ _
              simp only [Except.ok.injEq, List.forall₂_cons_left_iff]
              constructor
              · rintro rfl
                exact ⟨b, r', hga, (ih r').mp hm, rfl⟩
              · rintro ⟨b'', r'', hb, hf, rfl⟩
                have h1 : l.mapM g = .ok r'' := (ih r'').mpr hf
                rw [hm] at h1
                cases h1
                rw [hga] at hb
                cases hb
                rfl

theorem mapM_error_iff {ε α β : Type} (g : α → Except ε β) :
    ∀ l : List α, (∃ e, l.mapM g = .error e) ↔ ∃ a ∈ l, ∃ e, g a = .error e := by
  intro l
  induction l with
  | nil =>
      rw [List.mapM_nil]
      constructor
      · rintro ⟨e, he⟩; exact Except.noConfusion he
      · rintro ⟨a, ha, -⟩; exact absurd ha (List.not_mem_nil a)
  | cons a l ih =>
      rw [List.mapM_cons]
      cases hga : g a with
      | error e =>
          constructor
          · intro _; exact ⟨a, List.mem_cons_self a l, e, hga⟩
          · intro _; exact ⟨e, rfl⟩
      | ok b =>
          cases hm : l.mapM g with
          | error e =>
              constructor
              · intro _
                rcases ih.mp ⟨e, hm⟩ with ⟨a', ha', e', he'⟩
                exact ⟨a', List.mem_cons_of_mem a ha', e', he'⟩
              · intro _; exact ⟨e, rfl⟩
          | ok r' =>
              constructor
              · rintro ⟨e, he⟩; exact Except.noConfusion he
              · rintro ⟨a', ha', e', he'⟩
                rcases List.mem_cons.mp ha' with rfl | ha'
                · rw [hga] at he'; exact Except.noConfusion he'
                · rcases ih.mpr ⟨a', ha', e', he'⟩ with ⟨e, he⟩
                  rw [hm] at he
                  exact Except.noConfusion he

theorem mapM_ok_exists {ε α β : Type} (g : α → Except ε β) (l : List α)
    (h : ∀ a ∈ l, ∃ b, g a = .ok b) : ∃ r, l.mapM g = .ok r := by
  cases hm : l.mapM g with
  | ok r => exact ⟨r, rfl⟩
  | error e =>
      rcases (mapM_error_iff g l).mp ⟨e, hm⟩ with ⟨a, ha, e', he'⟩
      rcases h a ha with ⟨b, hb⟩
      rw [hb] at he'
      exact Except.noConfusion he'

/-! ### Characterizations of the pipeline stages -/

/-- The glob `getEvents` hands to the content store for a locale. -/
def eventsGlob (locale : String) : String :=
  "./site/" ++ locale ++ "/meet-the-team/events/**/*.md"

/-- The raw events retained by `getEvents` after retrieval and the optional
filter step. -/
def retained (collections : Collections) (filter : Option (RawEventData → Bool))
    (locale : String) : List RawEventData :=
  let payload := collections.getFilteredByGlob (eventsGlob locale)
  match filter with
  | some f => payload.filter f
  | none => payload

theorem getEvents_eq (env : Env) (collections : Collections)
    (filter : Option (RawEventData → Bool))
    (sort : Option (EventsCollectionItem → EventsCollectionItem → Bool))
    (locale : String) :
    getEvents env collections filter sort locale =
      ((retained collections filter locale).mapM (normalizeEvent env locale)).bind
        (fun payload =>
          match sort with
          | some le => .ok (sortWith le payload)
          | none => .ok payload) := by
  cases hm : (retained collections filter locale).mapM (normalizeEvent env locale) with
  | ok payload =>
      show ((retained collections filter locale).mapM (normalizeEvent env locale)).bind _ = _
      rw [hm]
      cases sort <;> rfl
  | error e =>
      show ((retained collections filter locale).mapM (normalizeEvent env locale)).bind _ = _
      rw [hm]
      rfl

theorem getEvents_ok_iff (env : Env) (collections : Collections)
    (filter : Option (RawEventData → Bool))
    (sort : Option (EventsCollectionItem → EventsCollectionItem → Bool))
    (locale : String) (r : List EventsCollectionItem) :
    getEvents env collections filter sort locale = .ok r ↔
      ∃ payload,
        (retained collections filter locale).mapM (normalizeEvent env locale) = .ok payload ∧
          r = (match sort with
               | some le => sortWith le payload
               | none => payload) := by
  rw [getEvents_eq]
  cases hm : (retained collections filter locale).mapM (normalizeEvent env locale) with
  | ok payload =>
      show (match sort with
            | some le => Except.ok (sortWith le payload)
            | none => Except.ok payload) = Except.ok r ↔ _
      cases sort with
      | some le =>
          simp only [Except.ok.injEq]
          constructor
          · rintro rfl; exact ⟨payload, rfl, rfl⟩
          · rintro ⟨p, hp, rfl⟩; cases hp; rfl
      | none =>
          simp only [Except.ok.injEq]
          constructor
          · rintro rfl; exact ⟨payload, rfl, rfl⟩
          · rintro ⟨p, hp, rfl⟩; cases hp; rfl
  | error e =>
      constructor
      · intro h; exact Except.noConfusion h
      · rintro ⟨p, hp, -⟩; exact Except.noConfusion hp

theorem getEvents_error_iff (env : Env) (collections : Collections)
    (filter : Option (RawEventData → Bool))
    (sort : Option (EventsCollectionItem → EventsCollectionItem → Bool))
    (locale : String) :
    (∃ msg, getEvents env collections filter sort locale = .error msg) ↔
      ∃ e ∈ retained collections filter locale, ∃ msg,
        normalizeEvent env locale e = .error msg := by
  constructor
  · rintro ⟨msg, hmsg⟩
    rw [getEvents_eq] at hmsg
    cases hm : (retained collections filter locale).mapM (normalizeEvent env locale) with
    | ok payload =>
        rw [hm] at hmsg
        cases sort with
        | some le => exact Except.noConfusion hmsg
        | none => exact Except.noConfusion hmsg
    | error e =>
        exact (mapM_error_iff (normalizeEvent env locale)
          (retained collections filter locale)).mp ⟨e, hm⟩
  · intro h
    rcases (mapM_error_iff (normalizeEvent env locale)
      (retained collections filter locale)).mpr h with ⟨e, he⟩
    refine ⟨e, ?_⟩
    rw [getEvents_eq, he]
    rfl

theorem normalizeEvent_eq (env : Env) (locale : String) (event : RawEventData) :
    normalizeEvent env locale event =
      (event.sessions.mapM (fun session => processSession env session locale)).map
        (fun sessions =>
          { id := event.id
            title := event.title
            externalUrl := event.externalUrl
            summary := event.summary
            location := event.location
            date := event.date
            isPastEvent := isPastEvent env event
            sessions := sessions
            image := Img { src := event.image.getD EVENT_PLACEHOLDER,
                           width := 400, height := 400, alt := event.title } }) := by
  cases hm : event.sessions.mapM (fun session => processSession env session locale) with
  | ok sessions =>
      show (event.sessions.mapM (fun session => processSession env session locale)).bind _ = _
      rw [hm]
      rfl
  | error e =>
      show (event.sessions.mapM (fun session => processSession env session locale)).bind _ = _
      rw [hm]
      rfl

theorem normalizeEvent_ok_iff (env : Env) (locale : String) (event : RawEventData)
    (v : EventsCollectionItem) :
    normalizeEvent env locale event = .ok v ↔
      ∃ sessions,
        event.sessions.mapM (fun session => processSession env session locale) = .ok sessions ∧
          v = { id := event.id
                title := event.title
                externalUrl := event.externalUrl
                summary := event.summary
                location := event.location
                date := event.date
                isPastEvent := isPastEvent env event
                sessions := sessions
                image := Img { src := event.image.getD EVENT_PLACEHOLDER,
                               width := 400, height := 400, alt := event.title } } := by
  rw [normalizeEvent_eq]
  cases hm : event.sessions.mapM (fun session => processSession env session locale) with
  | ok sessions =>
      show Except.ok _ = Except.ok v ↔ _
      simp only [Except.ok.injEq]
      constructor
      · rintro rfl; exact ⟨sessions, rfl, rfl⟩
      · rintro ⟨s, hs, rfl⟩; cases hs; rfl
  | error e =>
      constructor
      · intro h; exact Except.noConfusion h
      · rintro ⟨s, hs, -⟩; exact Except.noConfusion hs

theorem getAuthorData_error_iff (env : Env) (handle locale : String) :
    (∃ msg, getAuthorData env handle locale = .error msg) ↔
      env.authorsData.lookup handle = none := by
  cases hl : env.authorsData.lookup handle with
  | none => simp [getAuthorData, hl]
  | some rec => simp [getAuthorData, hl]

theorem getAuthorData_ok_of_lookup (env : Env) (handle locale : String)
    (rec : AuthorRecord) (hl : env.authorsData.lookup handle = some rec) :
    getAuthorData env handle locale =
      .ok { image := rec.image.getD env.defaultAvatarImg
            title := env.i18n ("i18n.authors." ++ handle ++ ".title") locale
            twitter := rec.twitter
            linkedin := rec.linkedin
            handle := handle } := by
  simp [getAuthorData, hl]

/-- The author handles a raw session references: its speaker for a
`speaker`-typed session, its participants otherwise. -/
def sessionHandles (s : RawSession) : List String :=
  if s.type == "speaker" then [s.speaker] else s.participants

/-- The fixed style class of session images. -/
def sessionImgClass : String :=
  "flex-shrink-none height-600 width-600 rounded-full gap-right-300"

theorem processSession_eq_speaker (env : Env) (s : RawSession) (locale : String)
    (h : s.type = "speaker") :
    processSession env s locale =
      (getAuthorData env s.speaker locale).bind (fun speaker =>
        .ok { title := s.title
              description := s.description
              type := s.type
              topics := s.topics
              slidesUrl := s.slidesUrl
              videoUrl := s.videoUrl
              speaker := some speaker
              participants := none
              image := some (Img { src := speaker.image, width := 40, height := 40,
                                   alt := speaker.title,
                                   cls := some sessionImgClass }) }) := by
  have hb : (s.type == "speaker") = true := by simp [h]
  simp only [processSession, hb, if_true, sessionImgClass]
  rfl

theorem processSession_eq_panel (env : Env) (s : RawSession) (locale : String)
    (h : ¬s.type = "speaker") :
    processSession env s locale =
      (s.participants.mapM (fun p => getAuthorData env p locale)).bind (fun participants =>
        .ok { title := match participants with
                | [p] => p.title
                | _ => env.i18n "i18n.events.multiple_participants" "en"
              description := s.description
              type := s.type
              topics := s.topics
              slidesUrl := s.slidesUrl
              videoUrl := s.videoUrl
              speaker := none
              participants := some participants
              image := some (Img { src := match participants with
                                     | [p] => p.image
                                     | _ => env.chromeImg
                                   , width := 40, height := 40,
                                   alt := match participants with
                                     | [p] => p.title
                                     | _ => env.i18n "i18n.events.multiple_participants" "en"
                                   , cls := some sessionImgClass }) }) := by
  have hb : (s.type == "speaker") = false := by
    simp only [beq_eq_false_iff_ne, ne_eq]; exact h
  simp only [processSession, hb, Bool.false_eq_true, if_false, sessionImgClass]
  rfl

theorem processSession_error_iff (env : Env) (s : RawSession) (locale : String) :
    (∃ msg, processSession env s locale = .error msg) ↔
      ∃ h ∈ sessionHandles s, env.authorsData.lookup h = none := by
  by_cases hty : s.type = "speaker"
  · have hb : (s.type == "speaker") = true := by simp [hty]
    rw [processSession_eq_speaker env s locale hty]
    simp only [sessionHandles, hb, if_true]
    cases hga : getAuthorData env s.speaker locale with
    | ok sp =>
        constructor
        · rintro ⟨msg, hmsg⟩; exact Except.noConfusion hmsg
        · rintro ⟨a, ha, hnone⟩
          have ha' : a = s.speaker := List.mem_singleton.mp ha
          subst ha'
          rcases (getAuthorData_error_iff env s.speaker locale).mpr hnone with ⟨msg, hmsg⟩
          rw [hga] at hmsg
          exact Except.noConfusion hmsg
    | error e =>
        constructor
        · intro _
          exact ⟨s.speaker, List.mem_singleton_self _,
            (getAuthorData_error_iff env s.speaker locale).mp ⟨e, hga⟩⟩
        · intro _; exact ⟨e, rfl⟩
  · have hb : (s.type == "speaker") = false := by
      simp only [beq_eq_false_iff_ne, ne_eq]; exact hty
    rw [processSession_eq_panel env s locale hty]
    simp only [sessionHandles, hb, Bool.false_eq_true, if_false]
    cases hm : s.participants.mapM (fun p => getAuthorData env p locale) with
    | ok ps =>
        constructor
        · rintro ⟨msg, hmsg⟩; exact Except.noConfusion hmsg
        · rintro ⟨a, ha, hnone⟩
          rcases (getAuthorData_error_iff env a locale).mpr hnone with ⟨msg, hmsg⟩
          rcases (mapM_error_iff (fun p => getAuthorData env p locale) s.participants).mpr
            ⟨a, ha, msg, hmsg⟩ with ⟨e, he⟩
          rw [hm] at he
          exact Except.noConfusion he
    | error e =>
        constructor
        · intro _
          rcases (mapM_error_iff (fun p => getAuthorData env p locale) s.participants).mp
            ⟨e, hm⟩ with ⟨a, ha, e', he'⟩
          exact ⟨a, ha, (getAuthorData_error_iff env a locale).mp ⟨e', he'⟩⟩
        · intro _; exact ⟨e, rfl⟩

/-! ### Concrete fixtures for witnesses and counterexamples -/

/-- Author record with an image, used by concrete instances. -/
def recA : AuthorRecord := { image := some "img-a", twitter := none, linkedin := none }

/-- Author record without an image (exercises the default-avatar fallback). -/
def recB : AuthorRecord := { image := none, twitter := some "bobtw", linkedin := none }

/-- Concrete environment: two known authors, an i18n service echoing its key,
and evaluation instant 100. -/
def envW : Env :=
  { authorsData := [("alice", recA), ("bob", recB)]
    i18n := fun key _ => key
    defaultAvatarImg := "davatar"
    chromeImg := "chrome-img"
    now := 100 }

/-- A concrete speaker session. -/
def sessW : RawSession :=
  { title := "Talk", description := "d", type := "speaker", topics := ["t"],
    slidesUrl := none, videoUrl := none, speaker := "alice", participants := [] }

/-- A concrete raw event holding `sessW`. -/
def evW : RawEventData :=
  { id := 1, title := "E", externalUrl := none, summary := "sum", location := "NYC",
    date := 0, image := none, sessions := [sessW] }

/-- The normalization of `evW` under `envW`. -/
def vW : EventsCollectionItem :=
  { id := 1, title := "E", externalUrl := none, summary := "sum", location := "NYC",
    date := 0, isPastEvent := true,
    sessions := [{ title := "Talk", description := "d", type := "speaker", topics := ["t"],
                   slidesUrl := none, videoUrl := none,
                   speaker := some { image := "img-a", title := "i18n.authors.alice.title",
                                     twitter := none, linkedin := none, handle := "alice" },
                   participants := none,
                   image := some { src := "img-a", width := 40, height := 40,
                                   alt := "i18n.authors.alice.title",
                                   cls := some sessionImgClass } }],
    image := { src := EVENT_PLACEHOLDER, width := 400, height := 400, alt := "E", cls := none } }

/-! ### Claim C7: session count round-trip -/

/-- C7: for every raw event that normalizes successfully, the session list of
the resulting view model has the same length as the raw event's sessions
sequence, and the i-th normalized session is the result of `processSession` on
the i-th raw session. -/
theorem sessions_roundtrip (env : Env) (locale : String) (event : RawEventData)
    (v : EventsCollectionItem) (h : normalizeEvent env locale event = .ok v) :
    v.sessions.length = event.sessions.length ∧
      ∀ (i : Nat) (hi : i < event.sessions.length) (hv : i < v.sessions.length),
        processSession env (event.sessions.get ⟨i, hi⟩) locale = .ok (v.sessions.get ⟨i, hv⟩) := by
  rcases (normalizeEvent_ok_iff env locale event v).mp h with ⟨sessions, hm, rfl⟩
  have hf := (mapM_ok_iff (fun session => processSession env session locale)
    event.sessions sessions).mp hm
  rw [List.forall₂_iff_get] at hf
  exact ⟨hf.1.symm, fun i hi hv => hf.2 i hi hv⟩

/-- Witness for C7 at the concrete event `evW`. -/
theorem sessions_roundtrip_witness :
    normalizeEvent envW "en" evW = .ok vW ∧ vW.sessions.length = evW.sessions.length :=
  ⟨rfl, (sessions_roundtrip envW "en" evW vW rfl).1⟩

/-! ### Claim C8: author resolution (corrected: the i18n key prefix) -/

/-- C8 as stated is false: the localization key derived from the handle uses
the prefix `i18n.authors.`, not `events.authors.`. With an i18n service that
echoes its key, the resolved title of `alice` is `i18n.authors.alice.title`,
which differs from the value the claimed key would yield. -/
theorem author_resolution_cex :
    getAuthorData envW "alice" "en" =
      .ok { image := "img-a", title := "i18n.authors.alice.title",
            twitter := none, linkedin := none, handle := "alice" } ∧
    envW.i18n "events.authors.alice.title" "en" = "events.authors.alice.title" ∧
    "i18n.authors.alice.title" ≠ "events.authors.alice.title" :=
  ⟨rfl, rfl, by decide⟩

/-- C8 (amended): for every handle present in the author directory and every
locale, the resolved author's title is obtained from the localization service
with the key `i18n.authors.<handle>.title`, the image is the directory
record's image or, when absent, the default avatar reference, the social
handles and the handle itself are copied verbatim. -/
theorem author_resolution (env : Env) (handle locale : String) (rec : AuthorRecord)
    (hl : env.authorsData.lookup handle = some rec) :
    getAuthorData env handle locale =
      .ok { image := rec.image.getD env.defaultAvatarImg
            title := env.i18n ("i18n.authors." ++ handle ++ ".title") locale
            twitter := rec.twitter
            linkedin := rec.linkedin
            handle := handle } :=
  getAuthorData_ok_of_lookup env handle locale rec hl

/-- Witness for C8 at handle `bob` (whose record has no image, so the default
avatar fallback is taken). -/
theorem author_resolution_witness :
    envW.authorsData.lookup "bob" = some recB ∧
    getAuthorData envW "bob" "en" =
      .ok { image := "davatar", title := "i18n.authors.bob.title",
            twitter := some "bobtw", linkedin := none, handle := "bob" } :=
  ⟨rfl, author_resolution envW "bob" "en" recB rfl⟩

/-! ### Claim C4: panel session title and image rules -/

/-- C4: for every non-speaker session whose participants all resolve, the
normalized session carries the resolved participants in input order; with
exactly one participant the title is that participant's resolved title and the
image is built from that participant's image; otherwise the title is the
localized multiple-participants label and the image is built from the fixed
`chromeImg` reference. -/
theorem panel_session_rules (env : Env) (s : RawSession) (locale : String)
    (hty : s.type ≠ "speaker") (ps : List EventPersonCollectionItem)
    (hps : s.participants.mapM (fun p => getAuthorData env p locale) = .ok ps) :
    ∃ payload, processSession env s locale = .ok payload ∧
      payload.participants = some ps ∧
      List.Forall₂ (fun h r => getAuthorData env h locale = .ok r) s.participants ps ∧
      (∀ p, ps = [p] →
        payload.title = p.title ∧
        payload.image = some (Img { src := p.image, width := 40, height := 40,
                                    alt := p.title, cls := some sessionImgClass })) ∧
      (ps.length ≠ 1 →
        payload.title = env.i18n "i18n.events.multiple_participants" "en" ∧
        payload.image = some (Img { src := env.chromeImg, width := 40, height := 40,
                                    alt := env.i18n "i18n.events.multiple_participants" "en",
                                    cls := some sessionImgClass })) := by
  rw [processSession_eq_panel env s locale hty, hps]
  refine ⟨_, rfl, rfl, (mapM_ok_iff (fun p => getAuthorData env p locale)
    s.participants ps).mp hps, ?_, ?_⟩
  · rintro p rfl
    exact ⟨rfl, rfl⟩
  · intro hlen
    match ps, hlen with
    | [], _ => exact ⟨rfl, rfl⟩
    | p :: q :: rest, _ => exact ⟨rfl, rfl⟩
    | [p], h => exact absurd rfl h

/-- A concrete two-participant panel session. -/
def sessPW : RawSession :=
  { title := "Panel", description := "pd", type := "panel", topics := ["pt"],
    slidesUrl := none, videoUrl := none, speaker := "",
    participants := ["bob", "alice"] }

/-- The resolution of `sessPW`'s participants under `envW`. -/
def psW : List EventPersonCollectionItem :=
  [{ image := "davatar", title := "i18n.authors.bob.title",
     twitter := some "bobtw", linkedin := none, handle := "bob" },
   { image := "img-a", title := "i18n.authors.alice.title",
     twitter := none, linkedin := none, handle := "alice" }]

/-- Witness for C4 at the concrete two-participant panel session `sessPW`. -/
theorem panel_session_rules_witness :
    sessPW.type ≠ "speaker" ∧
    (sessPW.participants.mapM (fun p => getAuthorData envW p "en") = .ok psW) ∧
    (∃ payload, processSession envW sessPW "en" = .ok payload ∧
      payload.participants = some psW ∧
      List.Forall₂ (fun h r => getAuthorData envW h "en" = .ok r) sessPW.participants psW ∧
      (∀ p, psW = [p] →
        payload.title = p.title ∧
        payload.image = some (Img { src := p.image, width := 40, height := 40,
                                    alt := p.title, cls := some sessionImgClass })) ∧
      (psW.length ≠ 1 →
        payload.title = envW.i18n "i18n.events.multiple_participants" "en" ∧
        payload.image = some (Img { src := envW.chromeImg, width := 40, height := 40,
                                    alt := envW.i18n "i18n.events.multiple_participants" "en",
                                    cls := some sessionImgClass }))) :=
  ⟨by decide, rfl, panel_session_rules envW sessPW "en" (by decide) psW rfl⟩

/-! ### Claim C10: empty participants list -/

/-- C10: a panel session with an empty participants list does not raise an
error: its view model has an empty participants sequence, the title is the
localized multiple-participants label, and the image is built from the
multi-participant placeholder reference. -/
theorem empty_panel_session (env : Env) (s : RawSession) (locale : String)
    (hty : s.type ≠ "speaker") (hp : s.participants = []) :
    processSession env s locale = .ok
      { title := env.i18n "i18n.events.multiple_participants" "en"
        description := s.description
        type := s.type
        topics := s.topics
        slidesUrl := s.slidesUrl
        videoUrl := s.videoUrl
        speaker := none
        participants := some []
        image := some (Img { src := env.chromeImg, width := 40, height := 40,
                             alt := env.i18n "i18n.events.multiple_participants" "en",
                             cls := some sessionImgClass }) } := by
  rw [processSession_eq_panel env s locale hty, hp]
  rfl

/-- A concrete panel session with no participants. -/
def sessEW : RawSession :=
  { title := "Panel", description := "pd", type := "panel", topics := [],
    slidesUrl := none, videoUrl := none, speaker := "", participants := [] }

/-- The expected normalization of `sessEW` under `envW`. -/
def sessEWOut : EventSessionCollectionItem :=
  { title := "i18n.events.multiple_participants", description := "pd",
    type := "panel", topics := [], slidesUrl := none, videoUrl := none,
    speaker := none, participants := some [],
    image := some { src := "chrome-img", width := 40, height := 40,
                    alt := "i18n.events.multiple_participants",
                    cls := some sessionImgClass } }

/-- Witness for C10 at the concrete empty panel session `sessEW`. -/
theorem empty_panel_session_witness :
    sessEW.type ≠ "speaker" ∧ sessEW.participants = [] ∧
    processSession envW sessEW "en" = .ok sessEWOut :=
  ⟨by decide, rfl, empty_panel_session envW sessEW "en" (by decide) rfl⟩

/-! ### Claim C3: unknown-author errors are fatal for the pipeline call -/

/-- Whether a raw event references some author handle that is absent from the
directory. -/
def hasUnknownAuthor (env : Env) (e : RawEventData) : Bool :=
  e.sessions.any (fun s => (sessionHandles s).any (fun h => (env.authorsData.lookup h).isNone))

theorem exceptMap_error_iff {ε α β : Type} (f : α → β) (m : Except ε α) :
    (∃ msg, m.map f = .error msg) ↔ ∃ msg, m = .error msg := by
  cases m <;> simp [Except.map]

theorem normalizeEvent_error_iff (env : Env) (locale : String) (e : RawEventData) :
    (∃ msg, normalizeEvent env locale e = .error msg) ↔ hasUnknownAuthor env e = true := by
  rw [normalizeEvent_eq]
  rw [exceptMap_error_iff]
  rw [mapM_error_iff]
  rw [hasUnknownAuthor, List.any_eq_true]
  constructor
  · rintro ⟨s, hs, hmsg⟩
    refine ⟨s, hs, ?_⟩
    rw [List.any_eq_true]
    rcases (processSession_error_iff env s locale).mp hmsg with ⟨h, hh, hnone⟩
    exact ⟨h, hh, by rw [Option.isNone_iff_eq_none]; exact hnone⟩
  · rintro ⟨s, hs, hany⟩
    rw [List.any_eq_true] at hany
    rcases hany with ⟨h, hh, hisnone⟩
    refine ⟨s, hs, ?_⟩
    exact (processSession_error_iff env s locale).mpr
      ⟨h, hh, Option.isNone_iff_eq_none.mp hisnone⟩

/-- A speaker session referencing the unknown handle `ghost`. -/
def sessGhost : RawSession :=
  { title := "G", description := "", type := "speaker", topics := [],
    slidesUrl := none, videoUrl := none, speaker := "ghost", participants := [] }

/-- A past-dated raw event containing `sessGhost`. -/
def evGhost : RawEventData :=
  { id := 9, title := "GE", externalUrl := none, summary := "", location := "X",
    date := 0, image := none, sessions := [sessGhost] }

/-- A content store holding only `evGhost` under the `en` locale. -/
def colGhost : Collections :=
  { getFilteredByGlob := fun g => if g = eventsGlob "en" then [evGhost] else [] }

/-- C3 as stated is false for the filtered entry points: with a store holding
one past-dated event whose session references the unknown handle `ghost`,
`currentEvents` filters that raw event out before normalization and succeeds
with an empty list instead of failing. -/
theorem unknown_author_cex :
    (∃ e ∈ (colGhost.getFilteredByGlob (eventsGlob "en")),
       hasUnknownAuthor envW e = true) ∧
    currentEvents envW colGhost = .ok [] :=
  ⟨⟨evGhost, List.mem_cons_self _ _, rfl⟩, rfl⟩

/-- C3 (amended): an unknown author handle is fatal for exactly the retained
raw events — the ones surviving the entry point's filter. A `getEvents` call
(hence also `pastEvents` and `currentEvents`, whose filter keeps past
respectively non-past raw events) fails with an error, producing no partial
output, iff some retained raw event references a handle absent from the
directory; `eventTags` uses no filter, so it fails iff any retrieved raw
event does. -/
theorem unknown_author_fatal :
    (∀ (env : Env) (collections : Collections) (filter : Option (RawEventData → Bool))
       (sort : Option (EventsCollectionItem → EventsCollectionItem → Bool)) (locale : String),
       (∃ msg, getEvents env collections filter sort locale = .error msg) ↔
         ∃ e ∈ retained collections filter locale, hasUnknownAuthor env e = true) ∧
    (∀ (env : Env) (collections : Collections),
       ((∃ msg, pastEvents env collections = .error msg) ↔
         ∃ e ∈ retained collections (some (fun event => isPastEvent env event)) "en",
           hasUnknownAuthor env e = true) ∧
       ((∃ msg, currentEvents env collections = .error msg) ↔
         ∃ e ∈ retained collections (some (fun event => isPastEvent env event == false)) "en",
           hasUnknownAuthor env e = true) ∧
       ((∃ msg, eventTags env collections = .error msg) ↔
         ∃ e ∈ collections.getFilteredByGlob (eventsGlob "en"),
           hasUnknownAuthor env e = true)) := by
  have main : ∀ (env : Env) (collections : Collections)
      (filter : Option (RawEventData → Bool))
      (sort : Option (EventsCollectionItem → EventsCollectionItem → Bool)) (locale : String),
      (∃ msg, getEvents env collections filter sort locale = .error msg) ↔
        ∃ e ∈ retained collections filter locale, hasUnknownAuthor env e = true := by
    intro env collections filter sort locale
    rw [getEvents_error_iff]
    constructor
    · rintro ⟨e, he, hmsg⟩
      exact ⟨e, he, (normalizeEvent_error_iff env locale e).mp hmsg⟩
    · rintro ⟨e, he, hbad⟩
      rcases (normalizeEvent_error_iff env locale e).mpr hbad with ⟨msg, hmsg⟩
      exact ⟨e, he, msg, hmsg⟩
  refine ⟨main, fun env collections => ⟨main env collections _ _ _, main env collections _ _ _, ?_⟩⟩
  have htags : ∀ msg, (eventTags env collections = .error msg ↔
      getEvents env collections none none = .error msg) := by
    intro msg
    rw [eventTags]
    cases hg : getEvents env collections none none with
    | ok events =>
        constructor
        · intro h; exact Except.noConfusion h
        · intro h; exact Except.noConfusion h
    | error e =>
        constructor
        · intro h
          have h2 : (Except.error e : Except String EventTagsResult) = Except.error msg := h
          injection h2 with h3
          rw [h3]
        · intro h
          injection h with h3
          show (Except.error e : Except String EventTagsResult) = Except.error msg
          rw [h3]
  have : (∃ msg, eventTags env collections = .error msg) ↔
      (∃ msg, getEvents env collections none none = .error msg) := by
    constructor
    · rintro ⟨msg, h⟩; exact ⟨msg, (htags msg).mp h⟩
    · rintro ⟨msg, h⟩; exact ⟨msg, (htags msg).mpr h⟩
  rw [this, main env collections none none "en"]
  rfl

/-! ### Facet extractor lemmas -/

theorem filterIdxFrom_shift {α : Type} (p : Nat → α → Bool) :
    ∀ (l : List α) (k : Nat),
      filterIdxFrom p l (k + 1) = filterIdxFrom (fun i a => p (i + 1) a) l k := by
  intro l
  induction l with
  | nil => intro k; rfl
  | cons a l ih =>
      intro k
      simp only [filterIdxFrom]
      rw [ih (k + 1)]

theorem filterIdxFrom_and {α : Type} (q : α → Bool) (r : Nat → α → Bool) :
    ∀ (l : List α) (k : Nat),
      filterIdxFrom (fun i a => q a && r i a) l k = (filterIdxFrom r l k).filter q := by
  intro l
  induction l with
  | nil => intro k; rfl
  | cons a l ih =>
      intro k
      by_cases hq : q a = true
      · by_cases hr : r k a = true
        · simp only [filterIdxFrom, hq, hr, Bool.and_self, if_true, List.filter_cons, ih]
        · simp only [filterIdxFrom, hq, Bool.true_and, hr, if_false, Bool.false_eq_true, ih]
      · by_cases hr : r k a = true
        · simp only [filterIdxFrom, hq, Bool.false_and, hr, if_true, if_false,
            Bool.false_eq_true, List.filter_cons, ih]
        · simp only [filterIdxFrom, hq, Bool.false_and, hr, if_false, Bool.false_eq_true, ih]

/-- The findIndex-based de-duplication step inside `uniqueSpeakers`, on its
own. -/
def jsDedupByHandle (l : List SpeakerTag) : List SpeakerTag :=
  filterIdxFrom (fun i s => l.findIdx (fun first => s.handle == first.handle) == i) l 0

theorem uniqueSpeakers_eq (events : List EventsCollectionItem) :
    uniqueSpeakers events =
      sortWith (fun a b => localeLe a.title b.title)
        (jsDedupByHandle (rawSpeakersOf events)) := rfl

theorem jsDedupByHandle_cons (a : SpeakerTag) (t : List SpeakerTag) :
    jsDedupByHandle (a :: t) =
      a :: (jsDedupByHandle t).filter (fun s => !(s.handle == a.handle)) := by
  unfold jsDedupByHandle
  simp only [filterIdxFrom]
  rw [if_pos (by simp [List.findIdx_cons])]
  congr 1
  rw [filterIdxFrom_shift]
  have hpred :
      (fun (i : Nat) (s : SpeakerTag) =>
        ((a :: t).findIdx (fun first => s.handle == first.handle) == i + 1)) =
      (fun (i : Nat) (s : SpeakerTag) =>
        (!(s.handle == a.handle)) &&
          (t.findIdx (fun first => s.handle == first.handle) == i)) := by
    funext i s
    rw [List.findIdx_cons]
    cases h : s.handle == a.handle
    · simp only [h, cond_false, Bool.not_false, Bool.true_and]
      generalize List.findIdx (fun first => s.handle == first.handle) t = n
      rw [Bool.eq_iff_iff]
      simp only [beq_iff_eq]
      omega
    · simp only [h, cond_true, Bool.not_true, Bool.false_and]
      rw [Bool.eq_iff_iff]
      simp only [beq_iff_eq, Bool.false_eq_true, iff_false]
      omega
  rw [hpred]
  rw [filterIdxFrom_and (fun s => !(s.handle == a.handle))
    (fun i s => (t.findIdx (fun first => s.handle == first.handle) == i)) t 0]

theorem jsDedupByHandle_handles_nodup (l : List SpeakerTag) :
    ((jsDedupByHandle l).map (fun s => s.handle)).Nodup := by
  induction l with
  | nil => simp [jsDedupByHandle, filterIdxFrom]
  | cons a t ih =>
      rw [jsDedupByHandle_cons, List.map_cons]
      refine List.Pairwise.cons ?_ ?_
      · intro x hx
        rcases List.mem_map.mp hx with ⟨s, hs, rfl⟩
        rcases List.mem_filter.mp hs with ⟨-, hne⟩
        intro hcontra
        rw [Bool.not_eq_eq_eq_not, Bool.not_true, beq_eq_false_iff_ne] at hne
        exact hne hcontra.symm
      · exact List.Nodup.sublist
          (List.Sublist.map (fun (s : SpeakerTag) => s.handle)
            (List.filter_sublist (jsDedupByHandle t))) ih

theorem jsDedupByHandle_mem_handles (x : String) (l : List SpeakerTag) :
    x ∈ (jsDedupByHandle l).map (fun s => s.handle) ↔
      x ∈ l.map (fun s => s.handle) := by
  induction l with
  | nil => rfl
  | cons a t ih =>
      rw [jsDedupByHandle_cons, List.map_cons, List.map_cons, List.mem_cons, List.mem_cons]
      constructor
      · rintro (rfl | hx)
        · exact Or.inl rfl
        · rcases List.mem_map.mp hx with ⟨s, hs, rfl⟩
          rcases List.mem_filter.mp hs with ⟨hmem, -⟩
          exact Or.inr (ih.mp (List.mem_map_of_mem _ hmem))
      · rintro (rfl | hx)
        · exact Or.inl rfl
        · by_cases hxa : x = a.handle
          · exact Or.inl hxa
          · rcases List.mem_map.mp (ih.mpr hx) with ⟨s, hs, rfl⟩
            refine Or.inr (List.mem_map_of_mem _ (List.mem_filter.mpr ⟨hs, ?_⟩))
            rw [Bool.not_eq_eq_eq_not, Bool.not_true, beq_eq_false_iff_ne]
            exact hxa

theorem jsDedupByHandle_first_occ (l : List SpeakerTag) (s : SpeakerTag)
    (hs : s ∈ jsDedupByHandle l) :
    l.find? (fun t => t.handle == s.handle) = some s := by
  induction l with
  | nil => exact absurd hs (by simp [jsDedupByHandle, filterIdxFrom])
  | cons a t ih =>
      rw [jsDedupByHandle_cons] at hs
      rw [List.find?_cons]
      rcases List.mem_cons.mp hs with heq | hmem
      · rw [heq]
        rw [show (a.handle == a.handle) = true from beq_self_eq_true _]
      · rcases List.mem_filter.mp hmem with ⟨hd, hne⟩
        rw [Bool.not_eq_eq_eq_not, Bool.not_true, beq_eq_false_iff_ne] at hne
        rw [show (a.handle == s.handle) = false from
          beq_eq_false_iff_ne.mpr (fun h => hne h.symm)]
        exact ih hd

theorem localeLe_total (a b : String) : localeLe a b = true ∨ localeLe b a = true := by
  simp only [localeLe, decide_eq_true_eq]
  exact le_total a b

theorem localeLe_trans (a b c : String) :
    localeLe a b = true → localeLe b c = true → localeLe a c = true := by
  simp only [localeLe, decide_eq_true_eq]
  exact le_trans

/-! ### Claim C5: facet de-duplication and sorting -/

/-- C5: on the full normalized event list, each distinct location, topic and
speaker handle appears exactly once in the corresponding facet of `eventTags`
(no duplicates, and exactly the values occurring in the input), and the three
facet lists are sorted ascending — locations and topics by the string order
modelling `localeCompare`, speakers by title. -/
theorem facets_unique_sorted (env : Env) (collections : Collections)
    (events : List EventsCollectionItem)
    (hg : getEvents env collections none none = .ok events) :
    eventTags env collections = .ok
      { locations := uniqueLocations events
        speakers := uniqueSpeakers events
        topics := uniqueTopics events } ∧
    (uniqueLocations events).Nodup ∧
    (∀ x, x ∈ uniqueLocations events ↔ x ∈ events.map (fun e => e.location)) ∧
    (uniqueLocations events).Sorted (fun a b => localeLe a b = true) ∧
    (uniqueTopics events).Nodup ∧
    (∀ x, x ∈ uniqueTopics events ↔
      x ∈ (events.map (fun e => e.sessions.flatMap (fun s => s.topics))).flatten) ∧
    (uniqueTopics events).Sorted (fun a b => localeLe a b = true) ∧
    ((uniqueSpeakers events).map (fun s => s.handle)).Nodup ∧
    (∀ x, x ∈ (uniqueSpeakers events).map (fun s => s.handle) ↔
      x ∈ (rawSpeakersOf events).map (fun s => s.handle)) ∧
    (uniqueSpeakers events).Sorted (fun a b => localeLe a.title b.title = true) := by
  refine ⟨?_, ?_, ?_, ?_, ?_, ?_, ?_, ?_, ?_, ?_⟩
  · rw [eventTags, hg]
    rfl
  · exact ((sortWith_perm localeLe
      (setSpread (events.map (fun e => e.location)))).nodup_iff).mpr
      (setSpread_nodup _)
  · intro x
    exact ((sortWith_perm localeLe
      (setSpread (events.map (fun e => e.location)))).mem_iff).trans
      (setSpread_mem x _)
  · exact sortWith_sorted localeLe localeLe_total localeLe_trans _
  · exact ((sortWith_perm localeLe
      (setSpread ((events.map (fun e => e.sessions.flatMap (fun s => s.topics))).flatten))).nodup_iff).mpr
      (setSpread_nodup _)
  · intro x
    exact ((sortWith_perm localeLe
      (setSpread ((events.map (fun e => e.sessions.flatMap (fun s => s.topics))).flatten))).mem_iff).trans
      (setSpread_mem x _)
  · exact sortWith_sorted localeLe localeLe_total localeLe_trans _
  · exact ((List.Perm.map (fun (s : SpeakerTag) => s.handle)
      (sortWith_perm (fun a b => localeLe a.title b.title)
        (jsDedupByHandle (rawSpeakersOf events)))).nodup_iff).mpr
      (jsDedupByHandle_handles_nodup _)
  · intro x
    exact ((List.Perm.map (fun (s : SpeakerTag) => s.handle)
      (sortWith_perm (fun a b => localeLe a.title b.title)
        (jsDedupByHandle (rawSpeakersOf events)))).mem_iff).trans
      (jsDedupByHandle_mem_handles x _)
  · exact sortWith_sorted (fun (a b : SpeakerTag) => localeLe a.title b.title)
      (fun (a b : SpeakerTag) => localeLe_total a.title b.title)
      (fun (a b c : SpeakerTag) => localeLe_trans a.title b.title c.title) _

/-- A raw event with one speaker session (topics `t2`, `t1`). -/
def evA : RawEventData :=
  { id := 1, title := "A", externalUrl := none, summary := "sa", location := "NYC",
    date := 5, image := none,
    sessions := [{ title := "TalkA", description := "da", type := "speaker",
                   topics := ["t2", "t1"], slidesUrl := none, videoUrl := none,
                   speaker := "alice", participants := [] }] }

/-- A raw event with one panel session, repeating location `NYC`, topic `t1`
and the speaker handle `alice`. -/
def evB : RawEventData :=
  { id := 2, title := "B", externalUrl := none, summary := "sb", location := "NYC",
    date := 300, image := some "cov",
    sessions := [{ title := "PanelB", description := "db", type := "panel",
                   topics := ["t1"], slidesUrl := none, videoUrl := none,
                   speaker := "", participants := ["bob", "alice"] }] }

/-- A content store holding `evA` and `evB` under the `en` locale. -/
def colW5 : Collections :=
  { getFilteredByGlob := fun g => if g = eventsGlob "en" then [evA, evB] else [] }

/-- The normalization of `[evA, evB]` under `envW`. -/
def evtsW5 : List EventsCollectionItem :=
  [{ id := 1, title := "A", externalUrl := none, summary := "sa", location := "NYC",
     date := 5, isPastEvent := true,
     sessions := [{ title := "TalkA", description := "da", type := "speaker",
                    topics := ["t2", "t1"], slidesUrl := none, videoUrl := none,
                    speaker := some { image := "img-a", title := "i18n.authors.alice.title",
                                      twitter := none, linkedin := none, handle := "alice" },
                    participants := none,
                    image := some { src := "img-a", width := 40, height := 40,
                                    alt := "i18n.authors.alice.title",
                                    cls := some sessionImgClass } }],
     image := { src := EVENT_PLACEHOLDER, width := 400, height := 400, alt := "A", cls := none } },
   { id := 2, title := "B", externalUrl := none, summary := "sb", location := "NYC",
     date := 300, isPastEvent := false,
     sessions := [{ title := "i18n.events.multiple_participants", description := "db",
                    type := "panel", topics := ["t1"], slidesUrl := none, videoUrl := none,
                    speaker := none, participants := some psW,
                    image := some { src := "chrome-img", width := 40, height := 40,
                                    alt := "i18n.events.multiple_participants",
                                    cls := some sessionImgClass } }],
     image := { src := "cov", width := 400, height := 400, alt := "B", cls := none } }]

/-- Witness for C5 at a store with repeated locations, topics and handles. -/
theorem facets_unique_sorted_witness :
    getEvents envW colW5 none none = .ok evtsW5 ∧
    eventTags envW colW5 = .ok
      { locations := uniqueLocations evtsW5
        speakers := uniqueSpeakers evtsW5
        topics := uniqueTopics evtsW5 } :=
  ⟨rfl, (facets_unique_sorted envW colW5 evtsW5 rfl).1⟩

/-! ### Claim C6: speaker facet keeps the first occurrence -/

/-- C6: every entry of the speakers facet is the first occurrence, in
flattening order, of its handle among the flattened speaker/participant
pairs — so the retained title is the first occurrence's title even when a
later occurrence of the same handle carries a different title. -/
theorem speaker_first_occurrence (events : List EventsCollectionItem) (s : SpeakerTag)
    (hs : s ∈ uniqueSpeakers events) :
    (rawSpeakersOf events).find? (fun t => t.handle == s.handle) = some s := by
  rw [uniqueSpeakers_eq] at hs
  exact jsDedupByHandle_first_occ _ s
    ((sortWith_perm (fun a b => localeLe a.title b.title)
      (jsDedupByHandle (rawSpeakersOf events))).mem_iff.mp hs)

/-- A dummy event cover image. -/
def imgDummy : ImgArgs := { src := "s", width := 1, height := 1, alt := "a", cls := none }

/-- A hand-built normalized event list in which the handle `x` occurs twice
with different titles (`Zed` first, then `Aaa`). -/
def evtsC6 : List EventsCollectionItem :=
  [{ id := 1, title := "E", externalUrl := none, summary := "", location := "L",
     date := 0, isPastEvent := true,
     sessions := [{ title := "s1", description := "", type := "speaker", topics := [],
                    slidesUrl := none, videoUrl := none,
                    speaker := some { image := "i", title := "Zed", twitter := none,
                                      linkedin := none, handle := "x" },
                    participants := none, image := some imgDummy },
                  { title := "s2", description := "", type := "speaker", topics := [],
                    slidesUrl := none, videoUrl := none,
                    speaker := some { image := "i", title := "Aaa", twitter := none,
                                      linkedin := none, handle := "x" },
                    participants := none, image := some imgDummy }],
     image := imgDummy }]

/-- Witness for C6: the retained facet entry for handle `x` is the first
occurrence (title `Zed`), although a later occurrence has title `Aaa`. -/
theorem speaker_first_occurrence_witness :
    ({ handle := "x", title := "Zed" } : SpeakerTag) ∈ uniqueSpeakers evtsC6 ∧
    (rawSpeakersOf evtsC6).find?
      (fun t => t.handle == ({ handle := "x", title := "Zed" } : SpeakerTag).handle) =
      some { handle := "x", title := "Zed" } :=
  ⟨by decide, speaker_first_occurrence evtsC6 { handle := "x", title := "Zed" } (by decide)⟩

/-! ### Claim C2: output ordering of pastEvents and currentEvents -/

/-- A session-free raw event with the given id, date and title. -/
def mkEv (i : Nat) (d : Int) (t : String) : RawEventData :=
  { id := i, title := t, externalUrl := none, summary := "", location := "L",
    date := d, image := none, sessions := [] }

/-- The normalization of `mkEv i d t` when `isPastEvent` yields `past`. -/
def mkV (i : Nat) (d : Int) (t : String) (past : Bool) : EventsCollectionItem :=
  { id := i, title := t, externalUrl := none, summary := "", location := "L",
    date := d, isPastEvent := past, sessions := [],
    image := { src := EVENT_PLACEHOLDER, width := 400, height := 400, alt := t, cls := none } }

/-- A content store with two past events sharing the date 5. -/
def colC2 : Collections :=
  { getFilteredByGlob := fun g => if g = eventsGlob "en" then [mkEv 3 5 "P3", mkEv 4 5 "P4"] else [] }

/-- C2 as stated is false: with two past events of equal date, the output of
`pastEvents` contains two equal dates in a row, so it is not sorted strictly
descending (only weakly). -/
theorem events_sorted_cex :
    pastEvents envW colC2 = .ok [mkV 3 5 "P3" true, mkV 4 5 "P4" true] ∧
    ¬ ([mkV 3 5 "P3" true, mkV 4 5 "P4" true].Pairwise (fun a b => b.date < a.date)) :=
  ⟨rfl, by decide⟩

/-- C2 (amended): the list returned by `pastEvents` is sorted descending by
event date and the list returned by `currentEvents` is sorted ascending by
event date, weakly in both cases — events of equal date may be adjacent. -/
theorem events_sorted (env : Env) (collections : Collections) :
    (∀ p, pastEvents env collections = .ok p →
      p.Pairwise (fun a b => b.date ≤ a.date)) ∧
    (∀ c, currentEvents env collections = .ok c →
      c.Pairwise (fun a b => a.date ≤ b.date)) := by
  constructor
  · intro p hp
    rw [pastEvents] at hp
    rcases (getEvents_ok_iff env collections _ _ _ p).mp hp with ⟨payload, -, rfl⟩
    have hs := sortWith_sorted sortDesc
      (fun a b => by
        simp only [sortDesc, decide_eq_true_eq]
        exact le_total b.date a.date)
      (fun a b c hab hbc => by
        simp only [sortDesc, decide_eq_true_eq] at *
        exact le_trans hbc hab)
      payload
    exact hs.imp (fun {a b} h => by
      simpa only [sortDesc, decide_eq_true_eq] using h)
  · intro c hc
    rw [currentEvents] at hc
    rcases (getEvents_ok_iff env collections _ _ _ c).mp hc with ⟨payload, -, rfl⟩
    have hs := sortWith_sorted sortAsc
      (fun a b => by
        simp only [sortAsc, decide_eq_true_eq]
        exact le_total a.date b.date)
      (fun a b c hab hbc => by
        simp only [sortAsc, decide_eq_true_eq] at *
        exact le_trans hab hbc)
      payload
    exact hs.imp (fun {a b} h => by
      simpa only [sortAsc, decide_eq_true_eq] using h)

/-- Witness for C2 at the concrete store `colC2`. -/
theorem events_sorted_witness :
    pastEvents envW colC2 = .ok [mkV 3 5 "P3" true, mkV 4 5 "P4" true] ∧
    ([mkV 3 5 "P3" true, mkV 4 5 "P4" true].Pairwise
      (fun a b => b.date ≤ a.date)) :=
  ⟨rfl, (events_sorted envW colC2).1 [mkV 3 5 "P3" true, mkV 4 5 "P4" true] rfl⟩

/-! ### Claim C1: past/current partition of the event list -/

theorem mapM_ok_mem {ε α β : Type} (g : α → Except ε β) (l : List α) (r : List β)
    (h : l.mapM g = .ok r) : ∀ a ∈ l, ∃ b, g a = .ok b := by
  intro a ha
  cases hga : g a with
  | ok b => exact ⟨b, rfl⟩
  | error e =>
      rcases (mapM_error_iff g l).mpr ⟨a, ha, e, hga⟩ with ⟨e', he'⟩
      rw [h] at he'
      exact Except.noConfusion he'

theorem normalizeEvent_id (env : Env) (locale : String) (a : RawEventData)
    (b : EventsCollectionItem) (h : normalizeEvent env locale a = .ok b) : b.id = a.id := by
  rcases (normalizeEvent_ok_iff env locale a b).mp h with ⟨s, -, rfl⟩
  rfl

theorem mapM_normalize_ids (env : Env) (locale : String) (l : List RawEventData)
    (r : List EventsCollectionItem) (h : l.mapM (normalizeEvent env locale) = .ok r) :
    r.map (fun e => e.id) = l.map (fun e => e.id) := by
  have hf := (mapM_ok_iff (normalizeEvent env locale) l r).mp h
  clear h
  induction hf with
  | nil => rfl
  | @cons a b l r h₁ h₂ ih =>
      simp only [List.map_cons, ih, normalizeEvent_id env locale a b h₁]

/-- A content store with two distinct events of the same id 7, one past and
one upcoming. -/
def colDup : Collections :=
  { getFilteredByGlob := fun g =>
      if g = eventsGlob "en" then [mkEv 7 5 "D1", mkEv 7 300 "D2"] else [] }

/-- C1 as stated is false when event identifiers repeat: with two events both
carrying id 7, one past and one upcoming, id 7 is returned by `pastEvents`
and by `currentEvents`, so the two identifier sets are not disjoint. -/
theorem events_partition_cex :
    pastEvents envW colDup = .ok [mkV 7 5 "D1" true] ∧
    currentEvents envW colDup = .ok [mkV 7 300 "D2" false] ∧
    (7 : Nat) ∈ [mkV 7 5 "D1" true].map (fun e => e.id) ∧
    (7 : Nat) ∈ [mkV 7 300 "D2" false].map (fun e => e.id) :=
  ⟨rfl, rfl, by decide, by decide⟩

/-- C1 (amended): for every raw event list and fixed evaluation instant, both
views succeed whenever the unfiltered pipeline does, the identifiers returned
by `pastEvents` together with those returned by `currentEvents` are exactly
the identifiers of all normalized events, and — provided the normalized
identifiers are pairwise distinct — the two identifier sets are disjoint. -/
theorem events_partition (env : Env) (collections : Collections)
    (all : List EventsCollectionItem)
    (hall : getEvents env collections none none = .ok all) :
    ∃ p c, pastEvents env collections = .ok p ∧ currentEvents env collections = .ok c ∧
      (∀ x, (x ∈ p.map (fun e => e.id) ∨ x ∈ c.map (fun e => e.id)) ↔
        x ∈ all.map (fun e => e.id)) ∧
      ((all.map (fun e => e.id)).Nodup →
        ∀ x, x ∈ p.map (fun e => e.id) → x ∉ c.map (fun e => e.id)) := by
  rcases (getEvents_ok_iff env collections none none "en" all).mp hall with ⟨pl, hpl, hall'⟩
  have hall2 : all = pl := hall'
  subst hall2
  set raw := retained collections none "en" with hraw
  have hfp : retained collections (some (fun event => isPastEvent env event)) "en" =
      raw.filter (fun event => isPastEvent env event) := rfl
  have hfc : retained collections (some (fun event => isPastEvent env event == false)) "en" =
      raw.filter (fun event => isPastEvent env event == false) := rfl
  have hex : ∀ a ∈ raw, ∃ b, normalizeEvent env "en" a = .ok b :=
    mapM_ok_mem (normalizeEvent env "en") raw all hpl
  rcases mapM_ok_exists (normalizeEvent env "en") (raw.filter (fun event => isPastEvent env event))
    (fun a ha => hex a (List.mem_filter.mp ha).1) with ⟨pp, hpp⟩
  rcases mapM_ok_exists (normalizeEvent env "en")
    (raw.filter (fun event => isPastEvent env event == false))
    (fun a ha => hex a (List.mem_filter.mp ha).1) with ⟨cc, hcc⟩
  have hppids : pp.map (fun e => e.id) =
      (raw.filter (fun event => isPastEvent env event)).map (fun e => e.id) :=
    mapM_normalize_ids env "en" _ pp hpp
  have hccids : cc.map (fun e => e.id) =
      (raw.filter (fun event => isPastEvent env event == false)).map (fun e => e.id) :=
    mapM_normalize_ids env "en" _ cc hcc
  have hallids : all.map (fun e => e.id) = raw.map (fun e => e.id) :=
    mapM_normalize_ids env "en" raw all hpl
  have hps : List.Perm ((sortWith sortDesc pp).map (fun e => e.id)) (pp.map (fun e => e.id)) :=
    List.Perm.map _ (sortWith_perm sortDesc pp)
  have hcs : List.Perm ((sortWith sortAsc cc).map (fun e => e.id)) (cc.map (fun e => e.id)) :=
    List.Perm.map _ (sortWith_perm sortAsc cc)
  have hnotlem : ∀ e : RawEventData,
      ((isPastEvent env e == false) : Bool) = !(isPastEvent env e) := by
    intro e
    cases isPastEvent env e <;> rfl
  refine ⟨sortWith sortDesc pp, sortWith sortAsc cc, ?_, ?_, ?_, ?_⟩
  · rw [pastEvents]
    exact (getEvents_ok_iff env collections _ _ _ _).mpr ⟨pp, by rw [hfp]; exact hpp, rfl⟩
  · rw [currentEvents]
    exact (getEvents_ok_iff env collections _ _ _ _).mpr ⟨cc, by rw [hfc]; exact hcc, rfl⟩
  · intro x
    rw [hps.mem_iff, hcs.mem_iff, hppids, hccids, hallids]
    rw [List.filter_congr (fun e _ => hnotlem e)]
    rw [← List.mem_append, ← List.map_append]
    exact (List.Perm.map (fun e => e.id)
      (List.filter_append_perm (fun event => isPastEvent env event) raw)).mem_iff
  · intro hnodup x hxp hxc
    rw [hps.mem_iff, hppids] at hxp
    rw [hcs.mem_iff, hccids] at hxc
    rw [hallids] at hnodup
    rcases List.mem_map.mp hxp with ⟨a₁, ha₁, rfl⟩
    rcases List.mem_map.mp hxc with ⟨a₂, ha₂, hid⟩
    rcases List.mem_filter.mp ha₁ with ⟨ha₁r, hpa₁⟩
    rcases List.mem_filter.mp ha₂ with ⟨ha₂r, hpa₂⟩
    have ha12 : a₁ = a₂ :=
      List.inj_on_of_nodup_map hnodup ha₁r ha₂r hid.symm
    rw [ha12] at hpa₁
    rw [hpa₁] at hpa₂
    exact absurd hpa₂ (by decide)

/-- A content store with one past and one upcoming event of distinct ids. -/
def colC1 : Collections :=
  { getFilteredByGlob := fun g =>
      if g = eventsGlob "en" then [mkEv 3 5 "P3", mkEv 4 300 "F4"] else [] }

/-- Witness for C1 at the concrete store `colC1`. -/
theorem events_partition_witness :
    getEvents envW colC1 none none = .ok [mkV 3 5 "P3" true, mkV 4 300 "F4" false] ∧
    ∃ p c, pastEvents envW colC1 = .ok p ∧ currentEvents envW colC1 = .ok c ∧
      (∀ x, (x ∈ p.map (fun e => e.id) ∨ x ∈ c.map (fun e => e.id)) ↔
        x ∈ [mkV 3 5 "P3" true, mkV 4 300 "F4" false].map (fun e => e.id)) ∧
      (([mkV 3 5 "P3" true, mkV 4 300 "F4" false].map (fun e => e.id)).Nodup →
        ∀ x, x ∈ p.map (fun e => e.id) → x ∉ c.map (fun e => e.id)) :=
  ⟨rfl, events_partition envW colC1 [mkV 3 5 "P3" true, mkV 4 300 "F4" false] rfl⟩

/-! ### Claim C9: locale scoping of the entry points -/

/-- A raw event stored only under the `es` locale glob. -/
def evEs : RawEventData := mkEv 8 5 "ES"

/-- A content store that is empty under the `en` glob but holds `evEs` under
the `es` glob. -/
def colC9 : Collections :=
  { getFilteredByGlob := fun g => if g = eventsGlob "es" then [evEs] else [] }

/-- A content store that is empty under every glob (it agrees with `colC9` on
the `en` glob but not on the `es` glob). -/
def colEmpty : Collections :=
  { getFilteredByGlob := fun _ => [] }

/-- C9 as stated is false: the produced entry points take no locale parameter
and always read the `en` glob. On a store whose only event lives under the
`es` locale, `pastEvents` returns the empty list, although the `es`-scoped
pipeline (getEvents at locale `es`) yields that event — so the output is not
derived from the `es` locale's events. -/
theorem locale_parameter_cex :
    pastEvents envW colC9 = .ok [] ∧
    currentEvents envW colC9 = .ok [] ∧
    getEvents envW colC9 (some (fun event => isPastEvent envW event))
      (some sortDesc) "es" = .ok [mkV 8 5 "ES" true] ∧
    ([] : List EventsCollectionItem) ≠ [mkV 8 5 "ES" true] :=
  ⟨rfl, rfl, rfl, by decide⟩

/-- C9 (amended): the three produced entry points take only the collections
object — no locale parameter — and call `getEvents` with its locale defaulted
to `en`; `getEvents` itself scopes retrieval to its locale parameter through
the glob path, and its output depends on the store only through the records
matching that locale's glob. -/
theorem entry_points_locale :
    (∀ (env : Env) (collections : Collections),
      pastEvents env collections =
        getEvents env collections (some (fun event => isPastEvent env event))
          (some sortDesc) "en" ∧
      currentEvents env collections =
        getEvents env collections (some (fun event => isPastEvent env event == false))
          (some sortAsc) "en" ∧
      eventTags env collections =
        (getEvents env collections none none "en").bind (fun events =>
          .ok { locations := uniqueLocations events
                speakers := uniqueSpeakers events
                topics := uniqueTopics events })) ∧
    (∀ (env : Env) (c₁ c₂ : Collections) (filter : Option (RawEventData → Bool))
       (sort : Option (EventsCollectionItem → EventsCollectionItem → Bool))
       (locale : String),
      c₁.getFilteredByGlob (eventsGlob locale) = c₂.getFilteredByGlob (eventsGlob locale) →
      getEvents env c₁ filter sort locale = getEvents env c₂ filter sort locale) := by
  constructor
  · intro env collections
    refine ⟨rfl, rfl, ?_⟩
    cases hg : getEvents env collections none none with
    | ok events =>
        rw [eventTags, hg]
        rfl
    | error e =>
        rw [eventTags, hg]
        rfl
  · intro env c₁ c₂ filter sort locale h
    rw [getEvents_eq, getEvents_eq]
    have hr : retained c₁ filter locale = retained c₂ filter locale := by
      cases filter with
      | none => exact h
      | some f => exact congrArg (List.filter f) h
    rw [hr]

/-- Witness for C9: two stores agreeing on the `en` glob (but not elsewhere)
give identical `getEvents` output at locale `en`. -/
theorem entry_points_locale_witness :
    colC9.getFilteredByGlob (eventsGlob "en") = colEmpty.getFilteredByGlob (eventsGlob "en") ∧
    getEvents envW colC9 (some (fun event => isPastEvent envW event)) (some sortDesc) "en" =
      getEvents envW colEmpty (some (fun event => isPastEvent envW event)) (some sortDesc) "en" :=
  ⟨rfl, entry_points_locale.2 envW colC9 colEmpty
    (some (fun event => isPastEvent envW event)) (some sortDesc) "en" rfl⟩

end Events
